import Mathlib

/-!
Verification development for the ETF price monitor core services
(`api/services/validator.py`, `api/services/calculator.py`,
`api/services/etf_parser.py`, `api/services/data_loader.py`).

The Python `float` is modelled by `PFloat`: either NaN or an exact rational
value.  Arithmetic propagates NaN and every order comparison involving NaN
is false, exactly as in IEEE-754 (rounding of finite values is not
modelled; none of the verified properties depends on it).
-/

/-- Model of a Python `float`: NaN or an exact rational value. -/
inductive PFloat where
  | nan : PFloat
  | val (q : ℚ) : PFloat
deriving DecidableEq, Repr

namespace PFloat

/-- IEEE addition: NaN propagates. -/
def add : PFloat → PFloat → PFloat
  | nan, _ => nan
  | _, nan => nan
  | val a, val b => val (a + b)

/-- IEEE multiplication: NaN propagates (infinities are not modelled). -/
def mul : PFloat → PFloat → PFloat
  | nan, _ => nan
  | _, nan => nan
  | val a, val b => val (a * b)

/-- IEEE subtraction: NaN propagates. -/
def sub : PFloat → PFloat → PFloat
  | nan, _ => nan
  | _, nan => nan
  | val a, val b => val (a - b)

/-- Python `abs` on a float: `abs(nan)` is NaN. -/
def fabs : PFloat → PFloat
  | nan => nan
  | val a => val |a|

/-- IEEE strict order: every comparison involving NaN is false. -/
def lt : PFloat → PFloat → Bool
  | val a, val b => decide (a < b)
  | _, _ => false

/-- IEEE non-strict order: every comparison involving NaN is false. -/
def le : PFloat → PFloat → Bool
  | val a, val b => decide (a ≤ b)
  | _, _ => false

/-- Whether the float is an actual number (not NaN). -/
def isVal : PFloat → Bool
  | nan => false
  | val _ => true

instance : Zero PFloat := ⟨val 0⟩

instance : Add PFloat := ⟨add⟩

instance : Mul PFloat := ⟨mul⟩

theorem add_def (x y : PFloat) : x + y = add x y := rfl

theorem mul_def (x y : PFloat) : x * y = mul x y := rfl

theorem zero_def : (0 : PFloat) = val 0 := rfl

protected theorem add_assoc (x y z : PFloat) : x + y + z = x + (y + z) := by
  cases x <;> cases y <;> cases z <;> simp [add_def, add] <;> ring

protected theorem add_comm (x y : PFloat) : x + y = y + x := by
  cases x <;> cases y <;> simp [add_def, add] <;> ring

protected theorem zero_add (x : PFloat) : 0 + x = x := by
  cases x <;> simp [add_def, add, zero_def]

protected theorem add_zero (x : PFloat) : x + 0 = x := by
  cases x <;> simp [add_def, add, zero_def]

instance : AddCommMonoid PFloat where
  add_assoc := PFloat.add_assoc
  add_comm := PFloat.add_comm
  zero_add := PFloat.zero_add
  add_zero := PFloat.add_zero
  nsmul := nsmulRec

protected theorem mul_comm (x y : PFloat) : x * y = y * x := by
  cases x <;> cases y <;> simp [mul_def, mul] <;> ring

end PFloat

/-- Embedding of the Python builtin `sum(...)` over floats: left fold starting at `0`. -/
def pySum (l : List PFloat) : PFloat := l.foldl (· + ·) 0

/-- One ETF constituent, a dict holding a name and a weight. -/
structure Constituent where
  name : String
  weight : PFloat
deriving DecidableEq, Repr

/-- One row of the prices DataFrame: its `DATE` value and one cell per
symbol column. -/
structure PriceRow where
  date : String
  cells : List (String × PFloat)
deriving DecidableEq, Repr

/-- The cached prices DataFrame: the symbol columns (everything except
`DATE`) and the date-ordered rows. -/
structure PriceTable where
  symbols : List String
  rows : List PriceRow
deriving DecidableEq, Repr

/-- Value of a symbol column at one row.  In a DataFrame every column is
present in every row; the default only totalises the lookup. -/
def cellPrice (r : PriceRow) (s : String) : PFloat :=
  (r.cells.lookup s).getD 0

/-- Rendering of a float into a message string.  The Python decimal
rendering is modelled by the exact rational rendering; no verified
property depends on the digits. -/
def pfloatStr : PFloat → String
  | PFloat.nan => "nan"
  | PFloat.val q => toString q

/-- Stable insertion of a string into an ascending list (models the
Python builtin `sorted` on strings; used only to build messages). -/
def insertStrAsc (s : String) : List String → List String
  | [] => [s]
  | x :: xs => if x ≤ s then x :: insertStrAsc s xs else s :: x :: xs

/-- Model of the Python builtin `sorted` on a list of strings. -/
def sortStrAsc (l : List String) : List String :=
  l.foldr insertStrAsc []

namespace ETFValidator

/-- Embedding of `ETFValidator.validate_weights_sum`: sums the weights and fails when
`abs(total - 1.0) > tolerance` (an IEEE comparison, false on NaN). -/
def validate_weights_sum (tolerance : PFloat) (constituents : List Constituent) :
    Bool × String :=
  let total_weight := pySum (constituents.map (·.weight))
  if PFloat.lt tolerance (PFloat.fabs (PFloat.sub total_weight (PFloat.val 1))) then
    (false,
      "Weight sum validation failed: weights sum to " ++ pfloatStr total_weight ++
      ", expected 1.0 ± " ++ pfloatStr tolerance ++
      ". Please ensure all constituent weights add up to 100%.")
  else
    (true, "")

/-- The `invalid_weights` list built by the loop in
`ETFValidator.validate_weight_ranges`. -/
def invalid_weights : List Constituent → List String
  | [] => []
  | c :: cs =>
    if PFloat.lt c.weight (PFloat.val 0) then
      (c.name ++ ": " ++ pfloatStr c.weight ++ " (negative weight)") :: invalid_weights cs
    else if PFloat.lt (PFloat.val 1) c.weight then
      (c.name ++ ": " ++ pfloatStr c.weight ++ " (exceeds 100%)") :: invalid_weights cs
    else
      invalid_weights cs

/-- Embedding of `ETFValidator.validate_weight_ranges`. -/
def validate_weight_ranges (constituents : List Constituent) : Bool × String :=
  let invalid := invalid_weights constituents
  if invalid ≠ [] then
    (false,
      "Invalid weight values detected:\n" ++
      String.intercalate "\n" (invalid.map (fun w => "  - " ++ w)))
  else
    (true, "")

/-- Embedding of `ETFValidator.validate_symbols_exist`. -/
def validate_symbols_exist (constituents : List Constituent)
    (available_symbols : List String) : Bool × String × List String :=
  let missing_symbols :=
    (constituents.map (·.name)).filter (fun s => !(available_symbols.contains s))
  if missing_symbols ≠ [] then
    (false,
      "The following symbols were not found in price data: " ++
      String.intercalate ", " missing_symbols ++
      ". Available symbols: " ++
      String.intercalate ", " ((sortStrAsc available_symbols).take 10) ++ "...",
      missing_symbols)
  else
    (true, "", [])

/-- Embedding of `ETFValidator.validate_non_empty`. -/
def validate_non_empty (constituents : List Constituent) : Bool × String :=
  if constituents = [] then
    (false, "ETF must have at least one constituent")
  else
    (true, "")

/-- Embedding of `ETFValidator.validate_no_duplicates`: a symbol is a duplicate when
it occurs at least twice; duplicates are reported deduplicated and
sorted. -/
def validate_no_duplicates (constituents : List Constituent) : Bool × String :=
  let symbols := constituents.map (·.name)
  let duplicates := (symbols.filter (fun s => 2 ≤ symbols.count s)).dedup
  if duplicates ≠ [] then
    (false, "Duplicate symbols found: " ++
      String.intercalate ", " (sortStrAsc duplicates))
  else
    (true, "")

/-- Embedding of `ETFValidator.validate_all`: empty lists short-circuit with the single
non-empty error; otherwise the four remaining checks run in a fixed
order, each failing check appending its message. -/
def validate_all (tolerance : PFloat) (constituents : List Constituent)
    (available_symbols : List String) : Bool × List String :=
  let r1 := validate_non_empty constituents
  if !r1.1 then (false, [r1.2])
  else
    let r2 := validate_no_duplicates constituents
    let r3 := validate_weight_ranges constituents
    let r4 := validate_weights_sum tolerance constituents
    let r5 := validate_symbols_exist constituents available_symbols
    let errors :=
      (if !r2.1 then [r2.2] else []) ++ (if !r3.1 then [r3.2] else []) ++
      (if !r4.1 then [r4.2] else []) ++ (if !r5.1 then [r5.2.1] else [])
    (errors.isEmpty, errors)

end ETFValidator

/-- Entry produced by `ETFCalculator.get_latest_prices`. -/
structure LatestEntry where
  symbol : String
  weight : PFloat
  latest_price : PFloat
deriving DecidableEq, Repr

/-- Entry produced by `ETFCalculator.get_top_holdings`. -/
structure Holding where
  symbol : String
  weight : PFloat
  latest_price : PFloat
  holding_value : PFloat
deriving DecidableEq, Repr

/-- Python slice `l[:n]`: clamps at both ends, a negative `n` counts from
the end (`len(l) + n`, empty when that is not positive). -/
def pySlice (l : List α) (n : Int) : List α :=
  if 0 ≤ n then l.take n.toNat else l.take ((l.length : Int) + n).toNat

/-- Columns of the prices DataFrame: the `DATE` column followed by the
symbol columns — the set the Python test `symbol in prices_df.columns`
consults. -/
def pdColumns (t : PriceTable) : List String :=
  "DATE" :: t.symbols

namespace ETFCalculator

/-- The constituent loop of `ETFCalculator.calculate_etf_prices` over
the `etf_price` column: that column starts at `0.0` everywhere; for a
constituent whose symbol is a DataFrame column the loop adds
`prices_df[symbol] * weight` elementwise — but for the column named
`DATE` that selects the datetime series, and multiplying it by a float
raises `TypeError`, modelled as `none`; an unknown symbol only warns. -/
def etf_price_loop (t : PriceTable) :
    List Constituent → List PFloat → Option (List PFloat)
  | [], acc => some acc
  | c :: cs, acc =>
    if (pdColumns t).contains c.name then
      if c.name = "DATE" then none
      else etf_price_loop t cs
        (List.zipWith (fun p r => p + cellPrice r c.name * c.weight) acc t.rows)
    else etf_price_loop t cs acc

/-- Embedding of `ETFCalculator.calculate_etf_prices`: the returned
DataFrame as the list of `(DATE, etf_price)` pairs in table row order;
`none` models the `TypeError` raised on a constituent named `DATE`. -/
def calculate_etf_prices (t : PriceTable) (constituents : List Constituent) :
    Option (List (String × PFloat)) :=
  (etf_price_loop t constituents (t.rows.map (fun _ => (0 : PFloat)))).map
    (fun col => List.zip (t.rows.map (·.date)) col)

/-- Formula of the spec for the index series, stated independently of
the implementation: one point per table row, in table order, whose
price is the left-fold sum over all constituents of
`weight × price(symbol, date)`, an unknown symbol contributing `0.0`. -/
def spec_index_series (t : PriceTable) (constituents : List Constituent) :
    List (String × PFloat) :=
  t.rows.map (fun r =>
    (r.date,
      pySum (constituents.map (fun c =>
        if t.symbols.contains c.name then c.weight * cellPrice r c.name else 0))))

/-- The latest-price selection for one constituent, as the code writes
it: the last-row value when the symbol is a DataFrame column, `0.0`
otherwise. -/
def latestEntry (t : PriceTable) (lastRow : PriceRow) (c : Constituent) : LatestEntry :=
  { symbol := c.name
    weight := c.weight
    latest_price := if (pdColumns t).contains c.name then cellPrice lastRow c.name else 0 }

/-- The appending loop of `ETFCalculator.get_latest_prices`: for a
constituent named `DATE` the selected value is a Timestamp and
`float(latest_price)` raises `TypeError`, modelled as `none`. -/
def latestLoop (t : PriceTable) (lastRow : PriceRow) :
    List Constituent → Option (List LatestEntry)
  | [] => some []
  | c :: cs =>
    if c.name = "DATE" then none
    else (latestLoop t lastRow cs).map (fun rest => latestEntry t lastRow c :: rest)

/-- Embedding of `ETFCalculator.get_latest_prices`:
`prices_df.iloc[-1]` raises on an empty table, and `float(Timestamp)`
raises on a constituent named `DATE`; both are modelled as `none`. -/
def get_latest_prices (t : PriceTable) (constituents : List Constituent) :
    Option (List LatestEntry) :=
  (t.rows.getLast?).bind (fun lastRow => latestLoop t lastRow constituents)

/-- The holding built from one constituent:
`holding_value = weight * latest_price`. -/
def mkHolding (t : PriceTable) (lastRow : PriceRow) (c : Constituent) : Holding :=
  let latest_price := if (pdColumns t).contains c.name then cellPrice lastRow c.name else 0
  { symbol := c.name
    weight := c.weight
    latest_price := latest_price
    holding_value := c.weight * latest_price }

/-- The appending loop of `ETFCalculator.get_top_holdings`: as in
`get_latest_prices`, a constituent named `DATE` raises `TypeError` at
`float(latest_price)`, modelled as `none`. -/
def holdingsLoop (t : PriceTable) (lastRow : PriceRow) :
    List Constituent → Option (List Holding)
  | [] => some []
  | c :: cs =>
    if c.name = "DATE" then none
    else (holdingsLoop t lastRow cs).map (fun rest => mkHolding t lastRow c :: rest)

/-- Stable descending insertion: the new element passes over strictly
greater holding values and stops before the first that is not, so equal
values keep their original relative order. -/
def insertHoldingDesc (h : Holding) : List Holding → List Holding
  | [] => [h]
  | x :: xs =>
    if PFloat.lt h.holding_value x.holding_value then x :: insertHoldingDesc h xs
    else h :: x :: xs

/-- Embedding of the in-place descending sort of `get_top_holdings`
(sort key: the holding value, reverse order): the Python `list.sort`
is documented as a stable sort; realised as stable insertion sort on
the IEEE comparison of the keys. -/
def sortHoldingsDesc (l : List Holding) : List Holding :=
  l.foldr insertHoldingDesc []

/-- Embedding of `ETFCalculator.get_top_holdings`: build the holdings,
sort them descending by holding value, return `holdings[:top_n]`;
`none` models the exceptions (empty table, constituent named `DATE`). -/
def get_top_holdings (t : PriceTable) (constituents : List Constituent)
    (top_n : Int) : Option (List Holding) :=
  (t.rows.getLast?).bind (fun lastRow =>
    (holdingsLoop t lastRow constituents).map
      (fun holdings => pySlice (sortHoldingsDesc holdings) top_n))

end ETFCalculator

/-- The decimal digit characters of a positive counter, as appended by
pandas when renaming a duplicated column. -/
def decimalChars (k : ℕ) : List Char :=
  ((Nat.digits 10 k).reverse).map Nat.digitChar

/-- The characters after the last `'.'` (Python `col.split('.')[-1]`
when `'.' in col`). -/
def afterLastDot (cs : List Char) : List Char :=
  (cs.reverse.takeWhile (fun c => c ≠ '.')).reverse

/-- The characters before the last `'.'` (Python `col.rsplit('.', 1)[0]`). -/
def beforeLastDot (cs : List Char) : List Char :=
  (((cs.reverse.dropWhile (fun c => c ≠ '.')).drop 1)).reverse

/-- The duplicate-indicator test of `ETFDataParser.parse_csv_file`:
`'.' in col and col.split('.')[-1].isdigit()`. -/
def hasDotDigitSuffix (cs : List Char) : Bool :=
  cs.contains '.' &&
    (!(afterLastDot cs).isEmpty && (afterLastDot cs).all Char.isDigit)

/-- Modelled from pandas `read_csv`: the k-th repeated occurrence of a
column name `c` is renamed to `c.k`; `seen` is the list of original
names already processed. -/
def mangleGo (seen : List (List Char)) : List (List Char) → List (List Char)
  | [] => []
  | c :: cs =>
    (if seen.count c = 0 then c else c ++ '.' :: decimalChars (seen.count c)) ::
      mangleGo (seen ++ [c]) cs

/-- The column names pandas reports for a given header row. -/
def mangle (header : List (List Char)) : List (List Char) :=
  mangleGo [] header

/-- Error taxonomy of the parser. -/
inductive ParseError where
  | formatInvalid : ParseError
  | duplicateColumns (names : List (List Char)) : ParseError
  | missingColumns (found : List (List Char)) : ParseError
  | emptyData : ParseError
  | nonNumericWeight : ParseError
deriving DecidableEq, Repr

/-- A DataFrame cell after pandas type inference: a float (numeric
columns, blanks become NaN) or a leftover string (a non-numeric token). -/
inductive Cell where
  | num (p : PFloat) : Cell
  | str (s : String) : Cell
deriving DecidableEq, Repr

/-- The cell as a constituent name. -/
def cellName : Cell → String
  | Cell.num p => pfloatStr p
  | Cell.str s => s

/-- Python `float(cell)`: succeeds on a float (NaN included), raises on
a non-numeric string token. -/
def cellFloat : Cell → Option PFloat
  | Cell.num p => some p
  | Cell.str _ => none

namespace ETFDataParser

/-- The weight-conversion loop of step 6 of
`ETFDataParser.parse_csv_file`. -/
def convertWeights (nameIdx weightIdx : ℕ) :
    List (List Cell) → Option (List Constituent)
  | [] => some []
  | row :: rows =>
    match cellFloat (row.getD weightIdx (Cell.str "")) with
    | none => none
    | some w =>
      (convertWeights nameIdx weightIdx rows).map
        (fun cs => ⟨cellName (row.getD nameIdx (Cell.str "")), w⟩ :: cs)

/-- Embedding of `ETFDataParser.parse_csv_file` on an already-tokenised table (the
byte-level CSV decoding of step 1 is input from the HTTP collaborator
and is taken as given): duplicate-column detection on the pandas-mangled
header, required-column check, empty check, projection and weight
conversion. -/
def parse_csv_file (header : List (List Char)) (rows : List (List Cell)) :
    Except ParseError (List Constituent) :=
  let cols := mangle header
  let duplicate_indicators := cols.filter hasDotDigitSuffix
  if duplicate_indicators ≠ [] then
    Except.error (ParseError.duplicateColumns
      ((duplicate_indicators.map beforeLastDot).dedup))
  else if !(cols.contains ("name".toList) && cols.contains ("weight".toList)) then
    Except.error (ParseError.missingColumns cols)
  else if rows = [] then
    Except.error ParseError.emptyData
  else
    match convertWeights (cols.indexOf ("name".toList))
        (cols.indexOf ("weight".toList)) rows with
    | none => Except.error ParseError.nonNumericWeight
    | some cs => Except.ok cs

/-- Whether a parse outcome is the duplicate-columns rejection. -/
def isDupColError : Except ParseError (List Constituent) → Bool
  | Except.error (ParseError.duplicateColumns _) => true
  | _ => false

end ETFDataParser

/-- The in-memory state of the `DataLoader` singleton, with an explicit
heap of DataFrame objects so that aliasing and mutation are statable:
`cache` is `_prices_df` (a reference into the heap, `none` before the
first load) and `source` is the on-disk CSV content, already tabular. -/
structure LoaderState where
  source : PriceTable
  heap : List PriceTable
  cache : Option Nat
deriving Repr

/-- Dereference a DataFrame handle. -/
def readRef (heap : List PriceTable) (r : Nat) : PriceTable :=
  (heap.get? r).getD ⟨[], []⟩

/-- In-place mutation of the DataFrame a handle points to. -/
def writeRef (s : LoaderState) (r : Nat) (t : PriceTable) : LoaderState :=
  { s with heap := s.heap.set r t }

/-- Ascending stable insertion of a row by date. -/
def insertRowAsc (r : PriceRow) : List PriceRow → List PriceRow
  | [] => [r]
  | x :: xs => if x.date ≤ r.date then x :: insertRowAsc r xs else r :: x :: xs

/-- Embedding of the ascending date sort in `DataLoader.load_prices`. -/
def sortRowsByDate (rows : List PriceRow) : List PriceRow :=
  rows.foldr insertRowAsc []

namespace DataLoader

/-- Embedding of `DataLoader.load_prices`: reads the source, sorts it by date and
replaces the cached DataFrame with the freshly allocated result. -/
def load_prices (s : LoaderState) : LoaderState :=
  { s with
    heap := s.heap ++ [⟨s.source.symbols, sortRowsByDate s.source.rows⟩]
    cache := some s.heap.length }

/-- Embedding of `DataLoader.get_prices`: loads first if not yet loaded, then returns
`self._prices_df.copy()` — a freshly allocated deep copy of the cached
DataFrame, as a new heap cell. -/
def get_prices (s : LoaderState) : LoaderState × Nat :=
  let s' := if s.cache.isNone then load_prices s else s
  let idx := s'.cache.getD 0
  ({ s' with heap := s'.heap ++ [readRef s'.heap idx] }, s'.heap.length)

/-- State well-formedness: the cache handle, when set, points into the
heap. -/
def WF (s : LoaderState) : Prop :=
  ∀ r, s.cache = some r → r < s.heap.length

end DataLoader

section PFloatLemmas

theorem PFloat.nan_add (x : PFloat) : PFloat.nan + x = PFloat.nan := by
  cases x <;> rfl

theorem PFloat.add_nan (x : PFloat) : x + PFloat.nan = PFloat.nan := by
  cases x <;> rfl

theorem PFloat.val_add (a b : ℚ) : PFloat.val a + PFloat.val b = PFloat.val (a + b) := rfl

theorem PFloat.val_mul (a b : ℚ) : PFloat.val a * PFloat.val b = PFloat.val (a * b) := rfl

theorem PFloat.lt_irrefl (p : PFloat) : PFloat.lt p p = false := by
  cases p <;> simp [PFloat.lt]

theorem PFloat.le_of_lt {p q : PFloat} (h : PFloat.lt p q = true) :
    PFloat.le p q = true := by
  cases p <;> cases q <;> simp_all [PFloat.lt, PFloat.le] <;> linarith

theorem PFloat.isVal_of_lt {p q : PFloat} (h : PFloat.lt p q = true) :
    p.isVal = true ∧ q.isVal = true := by
  cases p <;> cases q <;> simp_all [PFloat.lt, PFloat.isVal]

theorem PFloat.le_of_not_lt {p q : PFloat} (hp : p.isVal = true)
    (hq : q.isVal = true) (h : PFloat.lt p q = false) : PFloat.le q p = true := by
  cases p <;> cases q <;> simp_all [PFloat.lt, PFloat.le, PFloat.isVal] <;> linarith

theorem PFloat.le_trans {p q r : PFloat} (h₁ : PFloat.le p q = true)
    (h₂ : PFloat.le q r = true) : PFloat.le p r = true := by
  cases p <;> cases q <;> cases r <;> simp_all [PFloat.le] <;> linarith

theorem pySum_cons (x : PFloat) (l : List PFloat) :
    pySum (x :: l) = x + pySum l := by
  have haux : ∀ (l : List PFloat) (a b : PFloat),
      l.foldl (· + ·) (a + b) = a + l.foldl (· + ·) b := by
    intro l
    induction l with
    | nil => intro a b; rfl
    | cons y ys ih =>
      intro a b
      simp only [List.foldl_cons]
      rw [add_assoc, ih]
  simp only [pySum, List.foldl_cons]
  rw [← haux l x 0, add_zero, zero_add]

theorem pySum_eq_nan {l : List PFloat} (h : PFloat.nan ∈ l) :
    pySum l = PFloat.nan := by
  induction l with
  | nil => cases h
  | cons x xs ih =>
    rw [pySum_cons]
    rcases List.mem_cons.mp h with h1 | h1
    · rw [← h1, PFloat.nan_add]
    · rw [ih h1, PFloat.add_nan]

end PFloatLemmas

section ListLemmas

theorem zipWith_zipWith_same {α β γ δ : Type} (f : γ → β → δ) (g : α → β → γ)
    (l₁ : List α) (l₂ : List β) :
    List.zipWith f (List.zipWith g l₁ l₂) l₂ =
      List.zipWith (fun a b => f (g a b) b) l₁ l₂ := by
  induction l₁ generalizing l₂ with
  | nil => simp
  | cons x xs ih => cases l₂ with
    | nil => simp
    | cons y ys => simp [ih]

theorem zipWith_ext {α β γ : Type} {f g : α → β → γ} (l₁ : List α) (l₂ : List β)
    (h : ∀ a b, f a b = g a b) : List.zipWith f l₁ l₂ = List.zipWith g l₁ l₂ := by
  induction l₁ generalizing l₂ with
  | nil => simp
  | cons x xs ih => cases l₂ with
    | nil => simp
    | cons y ys => simp [ih, h]

theorem takeWhile_all_append {α : Type} (p : α → Bool) (l r : List α) (a : α)
    (hl : ∀ c ∈ l, p c = true) (ha : p a = false) :
    (l ++ a :: r).takeWhile p = l := by
  induction l with
  | nil => simp [List.takeWhile_cons, ha]
  | cons x xs ih =>
    have hx : p x = true := hl x (List.mem_cons_self x xs)
    simp only [List.cons_append, List.takeWhile_cons, hx]
    rw [ih (fun c hc => hl c (List.mem_cons_of_mem x hc))]
    simp

end ListLemmas

section CalculatorLemmas

/-- The contribution of one constituent to the index price of one row,
as the code computes it (`prices_df[symbol] * weight`, skipped when
unknown). -/
def rowContribution (t : PriceTable) (r : PriceRow) (c : Constituent) : PFloat :=
  if t.symbols.contains c.name then cellPrice r c.name * c.weight else 0

theorem zipWith_const_left {α β : Type} (l₁ : List α) (l₂ : List β)
    (h : l₁.length = l₂.length) : List.zipWith (fun a _ => a) l₁ l₂ = l₁ := by
  induction l₁ generalizing l₂ with
  | nil => simp
  | cons x xs ih => cases l₂ with
    | nil => simp at h
    | cons y ys =>
      simp only [List.zipWith_cons_cons]
      rw [ih ys (by simpa using h)]

theorem pdColumns_contains_true {t : PriceTable} {s : String}
    (hcol : (pdColumns t).contains s = true) (hne : s ≠ "DATE") :
    t.symbols.contains s = true := by
  simp only [pdColumns, List.contains_cons, Bool.or_eq_true, beq_iff_eq] at hcol
  rcases hcol with h | h
  · exact absurd h hne
  · exact h

theorem pdColumns_contains_false {t : PriceTable} {s : String}
    (hcol : ¬ (pdColumns t).contains s = true) :
    t.symbols.contains s = false := by
  simp only [pdColumns, List.contains_cons, Bool.or_eq_true, beq_iff_eq] at hcol
  push_neg at hcol
  exact Bool.eq_false_iff.mpr hcol.2

theorem etf_price_loop_eq (t : PriceTable) (cs : List Constituent)
    (hdate : ∀ c ∈ cs, c.name ≠ "DATE") :
    ∀ acc : List PFloat, acc.length = t.rows.length →
    ETFCalculator.etf_price_loop t cs acc =
      some (List.zipWith
        (fun a r => cs.foldl (fun p c => p + rowContribution t r c) a) acc t.rows) := by
  induction cs with
  | nil =>
    intro acc h
    simp only [ETFCalculator.etf_price_loop, List.foldl_nil]
    rw [zipWith_const_left acc t.rows h]
  | cons c cs ih =>
    intro acc h
    have hcd : c.name ≠ "DATE" := hdate c (List.mem_cons_self c cs)
    have hrest : ∀ z ∈ cs, z.name ≠ "DATE" :=
      fun z hz => hdate z (List.mem_cons_of_mem c hz)
    unfold ETFCalculator.etf_price_loop
    by_cases hcol : (pdColumns t).contains c.name = true
    · rw [if_pos hcol, if_neg hcd]
      have hsym : t.symbols.contains c.name = true := pdColumns_contains_true hcol hcd
      rw [ih hrest _ (by simp [List.length_zipWith, h]), zipWith_zipWith_same]
      refine congrArg some (zipWith_ext _ _ ?_)
      intro a r
      simp only [List.foldl_cons, rowContribution, hsym, if_true]
    · rw [if_neg hcol]
      have hsym : t.symbols.contains c.name = false := pdColumns_contains_false hcol
      rw [ih hrest acc h]
      refine congrArg some (zipWith_ext _ _ ?_)
      intro a r
      simp only [List.foldl_cons, rowContribution, hsym]
      rw [if_neg (by simp), add_zero]

/-- Characterisation of `calculate_etf_prices` on lists free of the
`DATE` name: one `(date, price)` pair per table row, the price being
the left-fold accumulation of the per-constituent contributions. -/
theorem calculate_etf_prices_eq (t : PriceTable) (cs : List Constituent)
    (hdate : ∀ c ∈ cs, c.name ≠ "DATE") :
    ETFCalculator.calculate_etf_prices t cs =
      some (t.rows.map (fun r =>
        (r.date, cs.foldl (fun p c => p + rowContribution t r c) 0))) := by
  unfold ETFCalculator.calculate_etf_prices
  rw [etf_price_loop_eq t cs hdate _ (by simp)]
  refine congrArg some ?_
  simp only [List.zipWith_map_left, List.zipWith_same]
  rw [List.zip_map']

theorem rowContribution_comm (t : PriceTable) (r : PriceRow) (c : Constituent) :
    rowContribution t r c =
      if t.symbols.contains c.name then c.weight * cellPrice r c.name else 0 := by
  unfold rowContribution
  split
  · rw [PFloat.mul_comm]
  · rfl

theorem latestLoop_eq_map (t : PriceTable) (lastRow : PriceRow)
    (cs : List Constituent) (hdate : ∀ c ∈ cs, c.name ≠ "DATE") :
    ETFCalculator.latestLoop t lastRow cs =
      some (cs.map (ETFCalculator.latestEntry t lastRow)) := by
  induction cs with
  | nil => rfl
  | cons c cs ih =>
    have hcd : c.name ≠ "DATE" := hdate c (List.mem_cons_self c cs)
    unfold ETFCalculator.latestLoop
    rw [if_neg hcd, ih (fun z hz => hdate z (List.mem_cons_of_mem c hz))]
    rfl

theorem holdingsLoop_eq_map (t : PriceTable) (lastRow : PriceRow)
    (cs : List Constituent) (hdate : ∀ c ∈ cs, c.name ≠ "DATE") :
    ETFCalculator.holdingsLoop t lastRow cs =
      some (cs.map (ETFCalculator.mkHolding t lastRow)) := by
  induction cs with
  | nil => rfl
  | cons c cs ih =>
    have hcd : c.name ≠ "DATE" := hdate c (List.mem_cons_self c cs)
    unfold ETFCalculator.holdingsLoop
    rw [if_neg hcd, ih (fun z hz => hdate z (List.mem_cons_of_mem c hz))]
    rfl

end CalculatorLemmas

section SortLemmas

open ETFCalculator

/-- Descending-order precedence, meaning a may stay before b: the
holding value of b does not exceed that of a. -/
def hvGe (a b : Holding) : Prop :=
  PFloat.le b.holding_value a.holding_value = true

theorem length_insertHoldingDesc (h : Holding) (l : List Holding) :
    (insertHoldingDesc h l).length = l.length + 1 := by
  induction l with
  | nil => rfl
  | cons x xs ih =>
    unfold insertHoldingDesc
    split
    · simp [ih]
    · simp

theorem length_sortHoldingsDesc (l : List Holding) :
    (sortHoldingsDesc l).length = l.length := by
  induction l with
  | nil => rfl
  | cons x xs ih =>
    show (insertHoldingDesc x (sortHoldingsDesc xs)).length = xs.length + 1
    rw [length_insertHoldingDesc, ih]

theorem mem_insertHoldingDesc {x h : Holding} {l : List Holding} :
    x ∈ insertHoldingDesc h l ↔ x = h ∨ x ∈ l := by
  induction l with
  | nil => simp [insertHoldingDesc]
  | cons y ys ih =>
    unfold insertHoldingDesc
    split
    · simp only [List.mem_cons, ih]
      tauto
    · simp only [List.mem_cons]

theorem mem_sortHoldingsDesc {x : Holding} {l : List Holding} :
    x ∈ sortHoldingsDesc l ↔ x ∈ l := by
  induction l with
  | nil => simp [sortHoldingsDesc]
  | cons y ys ih =>
    show x ∈ insertHoldingDesc y (sortHoldingsDesc ys) ↔ _
    rw [mem_insertHoldingDesc, ih]
    simp

theorem pairwise_insertHoldingDesc {h : Holding} {l : List Holding}
    (hall : ∀ x ∈ l, x.holding_value.isVal = true)
    (hh : h.holding_value.isVal = true) (hs : l.Pairwise hvGe) :
    (insertHoldingDesc h l).Pairwise hvGe := by
  induction l with
  | nil => simp [insertHoldingDesc, List.pairwise_cons]
  | cons x xs ih =>
    rw [List.pairwise_cons] at hs
    unfold insertHoldingDesc
    split
    next hlt =>
      rw [List.pairwise_cons]
      constructor
      · intro y hy
        rcases mem_insertHoldingDesc.mp hy with h1 | h1
        · rw [h1]
          exact PFloat.le_of_lt hlt
        · exact hs.1 y h1
      · exact ih (fun z hz => hall z (List.mem_cons_of_mem x hz)) hs.2
    next hlt =>
      have hx : x.holding_value.isVal = true := hall x (List.mem_cons_self x xs)
      have hxh : PFloat.le x.holding_value h.holding_value = true :=
        PFloat.le_of_not_lt hh hx (by revert hlt; cases PFloat.lt h.holding_value x.holding_value <;> simp)
      rw [List.pairwise_cons]
      constructor
      · intro y hy
        rcases List.mem_cons.mp hy with h1 | h1
        · rw [h1]; exact hxh
        · exact PFloat.le_trans (hs.1 y h1) hxh
      · rw [List.pairwise_cons]
        exact ⟨hs.1, hs.2⟩

theorem pairwise_sortHoldingsDesc {l : List Holding}
    (hall : ∀ x ∈ l, x.holding_value.isVal = true) :
    (sortHoldingsDesc l).Pairwise hvGe := by
  induction l with
  | nil => simp [sortHoldingsDesc]
  | cons x xs ih =>
    show (insertHoldingDesc x (sortHoldingsDesc xs)).Pairwise hvGe
    refine pairwise_insertHoldingDesc ?_ (hall x (List.mem_cons_self x xs)) ?_
    · intro z hz
      exact hall z (List.mem_cons_of_mem x (mem_sortHoldingsDesc.mp hz))
    · exact ih (fun z hz => hall z (List.mem_cons_of_mem x hz))

theorem filter_insertHoldingDesc (v : PFloat) (h : Holding) (l : List Holding) :
    (insertHoldingDesc h l).filter (fun x => x.holding_value == v) =
      ((h :: l).filter (fun x => x.holding_value == v)) := by
  induction l with
  | nil => rfl
  | cons x xs ih =>
    unfold insertHoldingDesc
    split
    next hlt =>
      by_cases hx : x.holding_value = v
      · have hh : ¬ (h.holding_value = v) := by
          intro hhv
          rw [hhv, ← hx] at hlt
          rw [PFloat.lt_irrefl] at hlt
          exact Bool.false_ne_true hlt
        simp only [List.filter_cons, hx, hh]
        simp only [beq_iff_eq, hx, hh, if_true, if_false, decide_True, decide_False]
        rw [ih]
        simp [List.filter_cons, beq_iff_eq, hh]
      · simp only [List.filter_cons, beq_iff_eq, hx, if_false, decide_False]
        rw [ih]
        simp [List.filter_cons, beq_iff_eq, hx]
    next hlt => rfl

theorem filter_sortHoldingsDesc (v : PFloat) (l : List Holding) :
    (sortHoldingsDesc l).filter (fun x => x.holding_value == v) =
      l.filter (fun x => x.holding_value == v) := by
  induction l with
  | nil => rfl
  | cons x xs ih =>
    show (insertHoldingDesc x (sortHoldingsDesc xs)).filter _ = _
    rw [filter_insertHoldingDesc]
    simp only [List.filter_cons]
    rw [ih]

end SortLemmas

section LoaderLemmas

theorem readRef_append_lt {heap : List PriceTable} {l : List PriceTable} {r : Nat}
    (h : r < heap.length) : readRef (heap ++ l) r = readRef heap r := by
  unfold readRef
  rw [List.get?_append h]

theorem readRef_concat_self (heap : List PriceTable) (x : PriceTable) :
    readRef (heap ++ [x]) heap.length = x := by
  unfold readRef
  rw [List.get?_concat_length]
  rfl

theorem readRef_set_ne {heap : List PriceTable} {r r' : Nat} {t : PriceTable}
    (h : r' ≠ r) : readRef (heap.set r' t) r = readRef heap r := by
  unfold readRef
  rw [List.get?_set_ne _ _ h]

end LoaderLemmas

section ParserLemmas

theorem digitChar_isDigit {d : ℕ} (h : d < 10) :
    (Nat.digitChar d).isDigit = true := by
  interval_cases d <;> decide

theorem digitChar_ne_dot {d : ℕ} (h : d < 10) : Nat.digitChar d ≠ '.' := by
  interval_cases d <;> decide

theorem decimalChars_ne_nil {k : ℕ} (h : k ≠ 0) : decimalChars k ≠ [] := by
  unfold decimalChars
  simp [Nat.digits_ne_nil_iff_ne_zero, h]

theorem decimalChars_digits {k : ℕ} {c : Char} (hc : c ∈ decimalChars k) :
    c.isDigit = true ∧ c ≠ '.' := by
  unfold decimalChars at hc
  rcases List.mem_map.mp hc with ⟨d, hd, rfl⟩
  have hlt : d < 10 := Nat.digits_lt_base (by norm_num) (List.mem_reverse.mp hd)
  exact ⟨digitChar_isDigit hlt, digitChar_ne_dot hlt⟩

theorem afterLastDot_concat (x d : List Char) (hd : ∀ c ∈ d, c ≠ '.') :
    afterLastDot (x ++ '.' :: d) = d := by
  unfold afterLastDot
  have h1 : (x ++ '.' :: d).reverse = d.reverse ++ '.' :: x.reverse := by
    simp
  rw [h1, takeWhile_all_append _ _ _ _ ?_ (by simp)]
  · exact List.reverse_reverse d
  · intro c hc
    simpa using hd c (List.mem_reverse.mp hc)

theorem hasDotDigitSuffix_concat {x : List Char} {k : ℕ} (h : k ≠ 0) :
    hasDotDigitSuffix (x ++ '.' :: decimalChars k) = true := by
  unfold hasDotDigitSuffix
  have hdot : (x ++ '.' :: decimalChars k).contains '.' = true := by
    simp [List.contains, List.elem_eq_mem]
  have hseg : afterLastDot (x ++ '.' :: decimalChars k) = decimalChars k :=
    afterLastDot_concat x _ (fun c hc => (decimalChars_digits hc).2)
  rw [hdot, hseg]
  simp only [Bool.true_and]
  have h1 : (decimalChars k).isEmpty = false := by
    cases hE : (decimalChars k).isEmpty
    · rfl
    · exact absurd (List.isEmpty_iff.mp hE) (decimalChars_ne_nil h)
  have h2 : (decimalChars k).all Char.isDigit = true :=
    List.all_eq_true.mpr (fun c hc => (decimalChars_digits hc).1)
  rw [h1, h2]
  rfl

theorem mangleGo_mem_dup (cs : List (List Char)) :
    ∀ (seen : List (List Char)) (a : List Char), a ∈ cs → a ∈ seen →
    ∃ col ∈ mangleGo seen cs, hasDotDigitSuffix col = true := by
  induction cs with
  | nil => intro seen a ha _; cases ha
  | cons c cs ih =>
    intro seen a ha hseen
    rcases List.mem_cons.mp ha with h1 | h1
    · subst h1
      have hcnt : seen.count a ≠ 0 := by
        have := List.count_pos_iff_mem.mpr hseen
        omega
      refine ⟨a ++ '.' :: decimalChars (seen.count a), ?_, hasDotDigitSuffix_concat hcnt⟩
      unfold mangleGo
      rw [if_neg hcnt]
      exact List.mem_cons_self _ _
    · rcases ih (seen ++ [c]) a h1 (List.mem_append_left _ hseen) with ⟨col, hmem, hcol⟩
      refine ⟨col, ?_, hcol⟩
      unfold mangleGo
      exact List.mem_cons_of_mem _ hmem

theorem mangleGo_not_nodup (cs : List (List Char)) :
    ∀ (seen : List (List Char)), ¬ cs.Nodup →
    ∃ col ∈ mangleGo seen cs, hasDotDigitSuffix col = true := by
  induction cs with
  | nil => intro seen h; exact absurd List.nodup_nil h
  | cons c cs ih =>
    intro seen h
    rw [List.nodup_cons] at h
    push_neg at h
    by_cases hc : c ∈ cs
    · rcases mangleGo_mem_dup cs (seen ++ [c]) c hc (List.mem_append_right _ (List.mem_singleton_self c)) with
        ⟨col, hmem, hcol⟩
      refine ⟨col, ?_, hcol⟩
      unfold mangleGo
      exact List.mem_cons_of_mem _ hmem
    · rcases ih (seen ++ [c]) (h hc) with ⟨col, hmem, hcol⟩
      refine ⟨col, ?_, hcol⟩
      unfold mangleGo
      exact List.mem_cons_of_mem _ hmem

/-- A header with a genuinely repeated name always yields a
pandas-mangled column with a dotted numeric suffix. -/
theorem mangle_any_of_not_nodup {header : List (List Char)}
    (h : ¬ header.Nodup) : (mangle header).any hasDotDigitSuffix = true := by
  rcases mangleGo_not_nodup header [] h with ⟨col, hmem, hcol⟩
  exact List.any_eq_true.mpr ⟨col, hmem, hcol⟩

/-- The duplicate-columns rejection fires exactly when the mangled
header contains a dotted-numeric column name. -/
theorem parse_dup_iff (header : List (List Char)) (rows : List (List Cell)) :
    ETFDataParser.isDupColError (ETFDataParser.parse_csv_file header rows) =
      (mangle header).any hasDotDigitSuffix := by
  have hiff : ((mangle header).filter hasDotDigitSuffix ≠ []) ↔
      ((mangle header).any hasDotDigitSuffix = true) := by
    rw [Ne, List.filter_eq_nil, List.any_eq_true]
    push_neg
    simp
  unfold ETFDataParser.parse_csv_file
  by_cases hd : (mangle header).filter hasDotDigitSuffix ≠ []
  · rw [if_pos hd, hiff.mp hd]
    rfl
  · rw [if_neg hd]
    have hany : (mangle header).any hasDotDigitSuffix = false := by
      cases hA : (mangle header).any hasDotDigitSuffix
      · rfl
      · exact absurd (hiff.mpr hA) hd
    rw [hany]
    split
    · rfl
    · split
      · rfl
      · split
        · rfl
        · rfl

end ParserLemmas

theorem invalid_weights_nil {cs : List Constituent}
    (hw : ∀ c ∈ cs, PFloat.lt c.weight (PFloat.val 0) = false ∧
      PFloat.lt (PFloat.val 1) c.weight = false) :
    ETFValidator.invalid_weights cs = [] := by
  induction cs with
  | nil => rfl
  | cons c cs ih =>
    have hc := hw c (List.mem_cons_self c cs)
    unfold ETFValidator.invalid_weights
    rw [if_neg (by rw [hc.1]; exact Bool.false_ne_true), if_neg (by rw [hc.2]; exact Bool.false_ne_true)]
    exact ih (fun z hz => hw z (List.mem_cons_of_mem c hz))

/-- Concrete two-symbol price table used by witnesses and
counterexamples. -/
def sampleTable : PriceTable :=
  ⟨["A", "B"],
   [⟨"2024-01-01", [("A", PFloat.val 100), ("B", PFloat.val 50)]⟩,
    ⟨"2024-01-02", [("A", PFloat.val 104), ("B", PFloat.val 154)]⟩]⟩

/-- Claim C1, counterexample: for the one-constituent list whose weight is
NaN and tolerance `0 ≥ 0`, `validate_weights_sum` returns
`is_valid = true`, not `false` as the claim states: in IEEE arithmetic
`abs(nan - 1.0) > tolerance` is *false*, so the failure branch is never
taken. -/
theorem C1_counterexample :
    PFloat.nan ∈ ([⟨"A", PFloat.nan⟩] : List Constituent).map (fun c => c.weight) ∧
    PFloat.le (PFloat.val 0) (PFloat.val 0) = true ∧
    (ETFValidator.validate_weights_sum (PFloat.val 0) [⟨"A", PFloat.nan⟩]).1 = true := by
  refine ⟨by decide, by decide, rfl⟩

/-- Claim C1 (amended): for every constituent list containing a NaN
weight and every tolerance ≥ 0, `validate_weights_sum` *succeeds*
(returns `(true, "")`): the total is NaN and the IEEE comparison
`abs(nan - 1.0) > tolerance` is false, so the NaN list silently passes
the sum check. -/
theorem C1_nan_sum_check_passes (constituents : List Constituent) (tol : ℚ)
    (htol : 0 ≤ tol)
    (hnan : PFloat.nan ∈ constituents.map (fun c => c.weight)) :
    ETFValidator.validate_weights_sum (PFloat.val tol) constituents = (true, "") := by
  have h1 : pySum (constituents.map (fun c => c.weight)) = PFloat.nan :=
    pySum_eq_nan hnan
  unfold ETFValidator.validate_weights_sum
  rw [h1]
  rfl

/-- Claim C1, witness for the amended theorem. -/
theorem C1_witness :
    (0 : ℚ) ≤ 0 ∧
    PFloat.nan ∈ ([⟨"A", PFloat.nan⟩] : List Constituent).map (fun c => c.weight) ∧
    ETFValidator.validate_weights_sum (PFloat.val 0) [⟨"A", PFloat.nan⟩] = (true, "") :=
  ⟨le_refl 0, by decide, C1_nan_sum_check_passes [⟨"A", PFloat.nan⟩] 0 (le_refl 0) (by decide)⟩

/-- Claim C2: `validate_all` on an empty list returns not-ok with exactly
the one non-empty error and nothing else; on a non-empty list the error
list is the concatenation, in the fixed order no-duplicates,
weight-ranges, weights-sum, symbols-exist, of the messages of the
failing checks (no short-circuiting), and ok holds iff that list is empty. -/
theorem C2_validate_all_structure (tol : PFloat) (cs : List Constituent)
    (avail : List String) :
    (cs = [] → ETFValidator.validate_all tol cs avail =
      (false, ["ETF must have at least one constituent"])) ∧
    (cs ≠ [] →
      (ETFValidator.validate_all tol cs avail).2 =
        (if (ETFValidator.validate_no_duplicates cs).1 then []
          else [(ETFValidator.validate_no_duplicates cs).2]) ++
        (if (ETFValidator.validate_weight_ranges cs).1 then []
          else [(ETFValidator.validate_weight_ranges cs).2]) ++
        (if (ETFValidator.validate_weights_sum tol cs).1 then []
          else [(ETFValidator.validate_weights_sum tol cs).2]) ++
        (if (ETFValidator.validate_symbols_exist cs avail).1 then []
          else [(ETFValidator.validate_symbols_exist cs avail).2.1]) ∧
      ((ETFValidator.validate_all tol cs avail).1 = true ↔
        (ETFValidator.validate_all tol cs avail).2 = [])) := by
  constructor
  · intro h
    subst h
    rfl
  · intro h
    unfold ETFValidator.validate_all ETFValidator.validate_non_empty
    rw [if_neg h]
    cases hb2 : (ETFValidator.validate_no_duplicates cs).1 <;>
      cases hb3 : (ETFValidator.validate_weight_ranges cs).1 <;>
      cases hb4 : (ETFValidator.validate_weights_sum tol cs).1 <;>
      cases hb5 : (ETFValidator.validate_symbols_exist cs avail).1 <;>
      simp [hb2, hb3, hb4, hb5]

/-- Claim C2, witness: both branches exercised at concrete inputs. -/
theorem C2_witness :
    ETFValidator.validate_all 0 [] ["A"] =
      (false, ["ETF must have at least one constituent"]) ∧
    ((ETFValidator.validate_all 0 [⟨"A", PFloat.val 1⟩] ["A"]).1 = true ↔
      (ETFValidator.validate_all 0 [⟨"A", PFloat.val 1⟩] ["A"]).2 = []) :=
  ⟨(C2_validate_all_structure 0 [] ["A"]).1 rfl,
   ((C2_validate_all_structure 0 [⟨"A", PFloat.val 1⟩] ["A"]).2 (by simp)).2⟩

/-- Claim C3: a non-empty list with distinct names, all weights numeric
in [0,1], total within tolerance of 1.0 and all symbols known validates
with `ok = true` and no errors. -/
theorem C3_validate_all_ok (tol : ℚ) (cs : List Constituent)
    (avail : List String) (S : ℚ)
    (hne : cs ≠ [])
    (hnodup : (cs.map (fun c => c.name)).Nodup)
    (hw : ∀ c ∈ cs, ∃ q : ℚ, c.weight = PFloat.val q ∧ 0 ≤ q ∧ q ≤ 1)
    (hsum : pySum (cs.map (fun c => c.weight)) = PFloat.val S)
    (hS : |S - 1| ≤ tol)
    (hsym : ∀ c ∈ cs, avail.contains c.name = true) :
    ETFValidator.validate_all (PFloat.val tol) cs avail = (true, []) := by
  have hfil : (cs.map (fun c => c.name)).filter
      (fun s => decide (2 ≤ (cs.map (fun c => c.name)).count s)) = [] := by
    apply List.filter_eq_nil.mpr
    intro a _
    have := List.nodup_iff_count_le_one.mp hnodup a
    simp only [decide_eq_true_eq]
    omega
  have h2 : ETFValidator.validate_no_duplicates cs = (true, "") := by
    simp only [ETFValidator.validate_no_duplicates]
    rw [hfil]
    simp
  have h3 : ETFValidator.validate_weight_ranges cs = (true, "") := by
    unfold ETFValidator.validate_weight_ranges
    have hnil : ETFValidator.invalid_weights cs = [] := by
      apply invalid_weights_nil
      intro c hc
      rcases hw c hc with ⟨q, hq, h0, h1⟩
      rw [hq]
      constructor
      · simp [PFloat.lt]
        linarith
      · simp [PFloat.lt]
        linarith
    rw [hnil]
    rfl
  have h4 : ETFValidator.validate_weights_sum (PFloat.val tol) cs = (true, "") := by
    have hcond : PFloat.lt (PFloat.val tol)
        (PFloat.fabs (PFloat.sub (PFloat.val S) (PFloat.val 1))) = false := by
      simp only [PFloat.sub, PFloat.fabs, PFloat.lt, decide_eq_false_iff_not, not_lt]
      exact hS
    simp only [ETFValidator.validate_weights_sum]
    rw [hsum, hcond]
    simp
  have h5 : ETFValidator.validate_symbols_exist cs avail = (true, "", []) := by
    have hfil : (cs.map (fun c => c.name)).filter
        (fun s => !(avail.contains s)) = [] := by
      apply List.filter_eq_nil.mpr
      intro a ha
      rcases List.mem_map.mp ha with ⟨c, hc, rfl⟩
      rw [hsym c hc]
      simp
    simp only [ETFValidator.validate_symbols_exist]
    rw [hfil]
    simp
  simp only [ETFValidator.validate_all, ETFValidator.validate_non_empty]
  rw [if_neg hne, h2, h3, h4, h5]
  simp

/-- Claim C3, witness: a valid two-constituent list. -/
theorem C3_witness :
    ETFValidator.validate_all (PFloat.val 0)
      [⟨"A", PFloat.val (1/2)⟩, ⟨"B", PFloat.val (1/2)⟩] ["A", "B"] = (true, []) :=
  C3_validate_all_ok 0 [⟨"A", PFloat.val (1/2)⟩, ⟨"B", PFloat.val (1/2)⟩]
    ["A", "B"] 1 (by simp) (by decide)
    (by
      intro c hc
      rcases List.mem_cons.mp hc with h | h
      · exact ⟨1/2, by rw [h], by norm_num, by norm_num⟩
      · rcases List.mem_cons.mp h with h' | h'
        · exact ⟨1/2, by rw [h'], by norm_num, by norm_num⟩
        · cases h')
    (by
      simp only [List.map_cons, List.map_nil, pySum, List.foldl_cons, List.foldl_nil,
        PFloat.zero_def, PFloat.val_add]
      norm_num)
    (by norm_num) (by decide)

/-- Claim C4, counterexample: for the one-constituent list whose name is
`DATE`, the code takes the known-column branch and multiplies the
datetime column by a float, raising `TypeError` — no index series with
one entry per row is returned, although the table has rows. -/
theorem C4_counterexample :
    ETFCalculator.calculate_etf_prices sampleTable [⟨"DATE", PFloat.val 1⟩] = none ∧
    sampleTable.rows ≠ [] := ⟨rfl, by decide⟩

/-- Claim C4 (amended): for every constituent list in which no
constituent is named `DATE` (the date column label), the index series
has exactly one entry per price-table row, in table order, each price
the left-fold sum over all constituents of
`weight × price(symbol, date)`, an unknown symbol contributing 0.0; a
constituent named `DATE` instead raises `TypeError` (the error outcome
of the model). -/
theorem C4_index_series_refines_spec (t : PriceTable) (cs : List Constituent)
    (hdate : ∀ c ∈ cs, c.name ≠ "DATE") :
    ETFCalculator.calculate_etf_prices t cs =
      some (ETFCalculator.spec_index_series t cs) := by
  rw [calculate_etf_prices_eq t cs hdate]
  refine congrArg some ?_
  unfold ETFCalculator.spec_index_series
  refine List.map_congr_left (fun r _ => ?_)
  refine congrArg (fun x => (r.date, x)) ?_
  have hfun : (fun (p : PFloat) (c : Constituent) => p + rowContribution t r c) =
      (fun (p : PFloat) (c : Constituent) => p +
        (if t.symbols.contains c.name then c.weight * cellPrice r c.name else 0)) := by
    funext p c
    rw [rowContribution_comm]
  rw [hfun]
  simp only [pySum]
  rw [List.foldl_map]

/-- Claim C4, witness for the amended theorem. -/
theorem C4_witness :
    ETFCalculator.calculate_etf_prices sampleTable [⟨"A", PFloat.val 1⟩] =
      some (ETFCalculator.spec_index_series sampleTable [⟨"A", PFloat.val 1⟩]) :=
  C4_index_series_refines_spec sampleTable [⟨"A", PFloat.val 1⟩] (by decide)

/-- Claim C6: `validate_weight_ranges` fails exactly when some weight is
strictly below 0 or strictly above 1 (0 and 1 themselves pass), and the
message enumerates, in input order, every offending symbol with its
weight and the matching reason tag. -/
theorem C6_weight_ranges (cs : List Constituent) :
    ((ETFValidator.validate_weight_ranges cs).1 = false ↔
      ∃ c ∈ cs, PFloat.lt c.weight (PFloat.val 0) = true ∨
        PFloat.lt (PFloat.val 1) c.weight = true) ∧
    ETFValidator.invalid_weights cs =
      (cs.filter (fun c => PFloat.lt c.weight (PFloat.val 0) ||
          PFloat.lt (PFloat.val 1) c.weight)).map
        (fun c => c.name ++ ": " ++ pfloatStr c.weight ++
          (if PFloat.lt c.weight (PFloat.val 0) then " (negative weight)"
            else " (exceeds 100%)")) ∧
    (ETFValidator.validate_weight_ranges cs).2 =
      (if ETFValidator.invalid_weights cs = [] then ""
        else "Invalid weight values detected:\n" ++
          String.intercalate "\n"
            ((ETFValidator.invalid_weights cs).map (fun w => "  - " ++ w))) := by
  have hlist : ETFValidator.invalid_weights cs =
      (cs.filter (fun c => PFloat.lt c.weight (PFloat.val 0) ||
          PFloat.lt (PFloat.val 1) c.weight)).map
        (fun c => c.name ++ ": " ++ pfloatStr c.weight ++
          (if PFloat.lt c.weight (PFloat.val 0) then " (negative weight)"
            else " (exceeds 100%)")) := by
    induction cs with
    | nil => rfl
    | cons c cs ih =>
      unfold ETFValidator.invalid_weights
      by_cases h0 : PFloat.lt c.weight (PFloat.val 0) = true
      · rw [if_pos h0]
        simp [List.filter_cons, h0, ih]
      · have h0f : PFloat.lt c.weight (PFloat.val 0) = false :=
          Bool.eq_false_iff.mpr h0
        rw [if_neg h0]
        by_cases h1 : PFloat.lt (PFloat.val 1) c.weight = true
        · rw [if_pos h1]
          simp [List.filter_cons, h0f, h1, ih]
        · have h1f : PFloat.lt (PFloat.val 1) c.weight = false :=
            Bool.eq_false_iff.mpr h1
          rw [if_neg h1]
          simp [List.filter_cons, h0f, h1f, ih]
  refine ⟨?_, hlist, ?_⟩
  · unfold ETFValidator.validate_weight_ranges
    by_cases hinv : ETFValidator.invalid_weights cs ≠ []
    · rw [if_pos hinv]
      simp only [true_iff]
      rw [hlist] at hinv
      have hfne : (cs.filter (fun c => PFloat.lt c.weight (PFloat.val 0) ||
          PFloat.lt (PFloat.val 1) c.weight)) ≠ [] := by
        intro hnil
        rw [hnil] at hinv
        exact hinv rfl
      rcases List.exists_mem_of_ne_nil _ hfne with ⟨c, hc⟩
      rcases List.mem_filter.mp hc with ⟨hcs, hcond⟩
      exact ⟨c, hcs, Bool.or_eq_true_iff.mp hcond⟩
    · rw [if_neg hinv]
      simp only [Bool.true_eq_false, false_iff]
      push_neg at hinv
      rw [hlist] at hinv
      intro hex
      rcases hex with ⟨c, hcs, hor⟩
      have hcond : (PFloat.lt c.weight (PFloat.val 0) ||
          PFloat.lt (PFloat.val 1) c.weight) = true := by
        rcases hor with h | h
        · rw [h]
          rfl
        · rw [h]
          simp
      have hmem : c ∈ cs.filter (fun c => PFloat.lt c.weight (PFloat.val 0) ||
          PFloat.lt (PFloat.val 1) c.weight) := List.mem_filter.mpr ⟨hcs, hcond⟩
      exact absurd hmem
        (List.eq_nil_iff_forall_not_mem.mp (List.map_eq_nil.mp hinv) c)
  · unfold ETFValidator.validate_weight_ranges
    by_cases hinv : ETFValidator.invalid_weights cs ≠ []
    · rw [if_pos hinv, if_neg (by exact hinv)]
    · push_neg at hinv
      rw [if_neg (by rw [hinv]; simp), if_pos hinv]
/-- Claim C5, counterexample: at `top_n = -1` over two constituents the
result has 1 entry, but `min(top_n, len(constituents)) = min(-1, 2) = -1`,
so the claimed length formula fails for a negative `top_n`. -/
theorem C5_counterexample :
    (ETFCalculator.get_top_holdings sampleTable
      [⟨"A", PFloat.nan⟩, ⟨"B", PFloat.nan⟩] (-1)).map List.length = some 1 ∧
    ¬ ((1 : ℤ) = min (-1 : ℤ) 2) := ⟨rfl, by decide⟩

/-- Claim C5 (amended): for a loaded (non-empty) price table, every
`top_n ≥ 0` and every constituent list with no constituent named `DATE`
and whose holding values are numbers (no NaN), `get_top_holdings`
returns `min(top_n, len(constituents))` entries: the stable descending
sort of the holdings, truncated; ties keep input order (the sort
preserves the per-value filter), and every entry stems from an input
constituent with `latest_price` the last-row price (0.0 if unknown) and
`holding_value = weight × latest_price`.  A constituent named `DATE`
raises `TypeError` instead. -/
theorem C5_top_holdings (t : PriceTable) (cs : List Constituent) (n : ℤ)
    (lastRow : PriceRow) (hn : 0 ≤ n) (hlast : t.rows.getLast? = some lastRow)
    (hdate : ∀ c ∈ cs, c.name ≠ "DATE")
    (hval : ∀ h ∈ cs.map (ETFCalculator.mkHolding t lastRow),
      h.holding_value.isVal = true) :
    ETFCalculator.get_top_holdings t cs n =
      some (pySlice (ETFCalculator.sortHoldingsDesc
        (cs.map (ETFCalculator.mkHolding t lastRow))) n) ∧
    (pySlice (ETFCalculator.sortHoldingsDesc
      (cs.map (ETFCalculator.mkHolding t lastRow))) n).length =
      min n.toNat cs.length ∧
    (pySlice (ETFCalculator.sortHoldingsDesc
      (cs.map (ETFCalculator.mkHolding t lastRow))) n).Pairwise hvGe ∧
    (∀ v : PFloat,
      (ETFCalculator.sortHoldingsDesc
        (cs.map (ETFCalculator.mkHolding t lastRow))).filter
          (fun h => h.holding_value == v) =
        (cs.map (ETFCalculator.mkHolding t lastRow)).filter
          (fun h => h.holding_value == v)) ∧
    (∀ h ∈ pySlice (ETFCalculator.sortHoldingsDesc
        (cs.map (ETFCalculator.mkHolding t lastRow))) n,
      ∃ c ∈ cs, h.symbol = c.name ∧ h.weight = c.weight ∧
        h.latest_price =
          (if (pdColumns t).contains c.name then cellPrice lastRow c.name else 0) ∧
        h.holding_value = c.weight * h.latest_price) := by
  refine ⟨?_, ?_, ?_, ?_, ?_⟩
  · unfold ETFCalculator.get_top_holdings
    rw [hlast]
    show (ETFCalculator.holdingsLoop t lastRow cs).map
      (fun holdings => pySlice (ETFCalculator.sortHoldingsDesc holdings) n) = _
    rw [holdingsLoop_eq_map t lastRow cs hdate]
    rfl
  · unfold pySlice
    rw [if_pos hn, List.length_take, length_sortHoldingsDesc, List.length_map]
  · unfold pySlice
    rw [if_pos hn]
    exact List.Pairwise.sublist (List.take_sublist _ _) (pairwise_sortHoldingsDesc hval)
  · intro v
    exact filter_sortHoldingsDesc v _
  · intro h hh
    unfold pySlice at hh
    rw [if_pos hn] at hh
    have h1 : h ∈ cs.map (ETFCalculator.mkHolding t lastRow) :=
      mem_sortHoldingsDesc.mp (List.take_subset _ _ hh)
    rcases List.mem_map.mp h1 with ⟨c, hc, heq⟩
    subst heq
    exact ⟨c, hc, rfl, rfl, rfl, rfl⟩

/-- Claim C5, witness for the amended theorem. -/
theorem C5_witness :
    ETFCalculator.get_top_holdings sampleTable [⟨"A", PFloat.val 1⟩] 2 =
      some (pySlice (ETFCalculator.sortHoldingsDesc
        (([⟨"A", PFloat.val 1⟩] : List Constituent).map
          (ETFCalculator.mkHolding sampleTable
            ⟨"2024-01-02", [("A", PFloat.val 104), ("B", PFloat.val 154)]⟩))) 2) ∧
    (pySlice (ETFCalculator.sortHoldingsDesc
      (([⟨"A", PFloat.val 1⟩] : List Constituent).map
        (ETFCalculator.mkHolding sampleTable
          ⟨"2024-01-02", [("A", PFloat.val 104), ("B", PFloat.val 154)]⟩))) 2).length =
      min (2 : ℤ).toNat ([⟨"A", PFloat.val 1⟩] : List Constituent).length ∧
    (pySlice (ETFCalculator.sortHoldingsDesc
      (([⟨"A", PFloat.val 1⟩] : List Constituent).map
        (ETFCalculator.mkHolding sampleTable
          ⟨"2024-01-02", [("A", PFloat.val 104), ("B", PFloat.val 154)]⟩))) 2).Pairwise
      hvGe ∧
    (ETFCalculator.sortHoldingsDesc
      (([⟨"A", PFloat.val 1⟩] : List Constituent).map
        (ETFCalculator.mkHolding sampleTable
          ⟨"2024-01-02", [("A", PFloat.val 104), ("B", PFloat.val 154)]⟩))).filter
        (fun h => h.holding_value == PFloat.val 104) =
      (([⟨"A", PFloat.val 1⟩] : List Constituent).map
        (ETFCalculator.mkHolding sampleTable
          ⟨"2024-01-02", [("A", PFloat.val 104), ("B", PFloat.val 154)]⟩)).filter
        (fun h => h.holding_value == PFloat.val 104) := by
  have h := C5_top_holdings sampleTable [⟨"A", PFloat.val 1⟩] 2
    ⟨"2024-01-02", [("A", PFloat.val 104), ("B", PFloat.val 154)]⟩
    (by decide) rfl (by decide) (by decide)
  exact ⟨h.1, h.2.1, h.2.2.1, h.2.2.2.1 (PFloat.val 104)⟩

/-- Claim C9, counterexample: with one constituent and `top_n = -1` the
hypothesis `len(c) + top_n ≥ 0` holds, yet the result *is* the empty
list, contradicting the claim that the result is never empty. -/
theorem C9_counterexample :
    (-1 : ℤ) < 0 ∧ (0 : ℤ) ≤ (1 : ℤ) + (-1) ∧
    ETFCalculator.get_top_holdings sampleTable [⟨"A", PFloat.val (1/2)⟩] (-1) =
      some [] := ⟨by decide, by decide, rfl⟩

/-- Claim C9 (amended): for a loaded (non-empty) price table, every
constituent list with no constituent named `DATE` and every negative
`top_n` with `len(constituents) + top_n > 0`, `get_top_holdings`
returns the first `len(constituents) + top_n` entries of the
descending-sorted holdings (Python negative-slice semantics) — a
non-empty list, not `min(top_n, len(constituents))` entries. -/
theorem C9_negative_top_n (t : PriceTable) (cs : List Constituent) (n : ℤ)
    (lastRow : PriceRow) (hlast : t.rows.getLast? = some lastRow)
    (hdate : ∀ c ∈ cs, c.name ≠ "DATE")
    (hn : n < 0) (hlen : 0 < (cs.length : ℤ) + n) :
    ETFCalculator.get_top_holdings t cs n =
      some (pySlice (ETFCalculator.sortHoldingsDesc
        (cs.map (ETFCalculator.mkHolding t lastRow))) n) ∧
    pySlice (ETFCalculator.sortHoldingsDesc
        (cs.map (ETFCalculator.mkHolding t lastRow))) n =
      (ETFCalculator.sortHoldingsDesc
        (cs.map (ETFCalculator.mkHolding t lastRow))).take
          ((cs.length : ℤ) + n).toNat ∧
    ((pySlice (ETFCalculator.sortHoldingsDesc
      (cs.map (ETFCalculator.mkHolding t lastRow))) n).length : ℤ) =
      (cs.length : ℤ) + n ∧
    pySlice (ETFCalculator.sortHoldingsDesc
      (cs.map (ETFCalculator.mkHolding t lastRow))) n ≠ [] := by
  have hsl : ((ETFCalculator.sortHoldingsDesc
      (cs.map (ETFCalculator.mkHolding t lastRow))).length : ℤ) = (cs.length : ℤ) := by
    rw [length_sortHoldingsDesc, List.length_map]
  refine ⟨?_, ?_, ?_, ?_⟩
  · unfold ETFCalculator.get_top_holdings
    rw [hlast]
    show (ETFCalculator.holdingsLoop t lastRow cs).map
      (fun holdings => pySlice (ETFCalculator.sortHoldingsDesc holdings) n) = _
    rw [holdingsLoop_eq_map t lastRow cs hdate]
    rfl
  · unfold pySlice
    rw [if_neg (by omega), hsl]
  · unfold pySlice
    rw [if_neg (by omega), hsl, List.length_take, length_sortHoldingsDesc,
      List.length_map]
    omega
  · unfold pySlice
    rw [if_neg (by omega), hsl]
    intro hnil
    have hlth := congrArg List.length hnil
    rw [List.length_take, length_sortHoldingsDesc, List.length_map] at hlth
    simp only [List.length_nil] at hlth
    omega

/-- Claim C9, witness for the amended theorem. -/
theorem C9_witness :
    ETFCalculator.get_top_holdings sampleTable
        [⟨"A", PFloat.val 1⟩, ⟨"B", PFloat.val 0⟩] (-1) =
      some (pySlice (ETFCalculator.sortHoldingsDesc
        (([⟨"A", PFloat.val 1⟩, ⟨"B", PFloat.val 0⟩] : List Constituent).map
          (ETFCalculator.mkHolding sampleTable
            ⟨"2024-01-02", [("A", PFloat.val 104), ("B", PFloat.val 154)]⟩))) (-1)) ∧
    ((pySlice (ETFCalculator.sortHoldingsDesc
      (([⟨"A", PFloat.val 1⟩, ⟨"B", PFloat.val 0⟩] : List Constituent).map
        (ETFCalculator.mkHolding sampleTable
          ⟨"2024-01-02", [("A", PFloat.val 104), ("B", PFloat.val 154)]⟩))) (-1)).length :
        ℤ) =
      ((([⟨"A", PFloat.val 1⟩, ⟨"B", PFloat.val 0⟩] :
        List Constituent).length : ℤ) + (-1)) ∧
    pySlice (ETFCalculator.sortHoldingsDesc
      (([⟨"A", PFloat.val 1⟩, ⟨"B", PFloat.val 0⟩] : List Constituent).map
        (ETFCalculator.mkHolding sampleTable
          ⟨"2024-01-02", [("A", PFloat.val 104), ("B", PFloat.val 154)]⟩))) (-1) ≠ [] := by
  have h := C9_negative_top_n sampleTable
    [⟨"A", PFloat.val 1⟩, ⟨"B", PFloat.val 0⟩] (-1)
    ⟨"2024-01-02", [("A", PFloat.val 104), ("B", PFloat.val 154)]⟩
    rfl (by decide) (by decide) (by decide)
  exact ⟨h.1, h.2.2.1, h.2.2.2⟩

/-- Claim C7, counterexample: the header `name,weight,a.1` has no
repeated column name, yet `parse_csv_file` raises the duplicate-columns
error, because the detection heuristic fires on any literal column name
with a dotted numeric suffix. -/
theorem C7_counterexample :
    (["name".toList, "weight".toList, "a.1".toList] : List (List Char)).Nodup ∧
    ETFDataParser.isDupColError
      (ETFDataParser.parse_csv_file ["name".toList, "weight".toList, "a.1".toList]
        [[Cell.str "A", Cell.num (PFloat.val 1), Cell.str "x"]]) = true := by
  exact ⟨by decide, by decide⟩

/-- Claim C7 (amended): `parse_csv_file` raises the duplicate-columns
error exactly when the pandas-mangled header contains a column whose last
dot-separated segment is a non-empty digit string; every header with a
genuinely repeated name is therefore rejected, but some headers whose
names are all distinct (e.g. a literal `a.1`) are rejected too. -/
theorem C7_duplicate_columns (header : List (List Char)) (rows : List (List Cell)) :
    (ETFDataParser.isDupColError (ETFDataParser.parse_csv_file header rows) =
      (mangle header).any hasDotDigitSuffix) ∧
    (¬ header.Nodup →
      ETFDataParser.isDupColError (ETFDataParser.parse_csv_file header rows) = true) := by
  refine ⟨parse_dup_iff header rows, fun h => ?_⟩
  rw [parse_dup_iff header rows]
  exact mangle_any_of_not_nodup h

/-- Claim C7, witness: a genuinely duplicated `name` column is rejected. -/
theorem C7_witness :
    ¬ (["name".toList, "weight".toList, "name".toList] : List (List Char)).Nodup ∧
    ETFDataParser.isDupColError
      (ETFDataParser.parse_csv_file ["name".toList, "weight".toList, "name".toList]
        [[Cell.str "A", Cell.num (PFloat.val 1), Cell.str "B"]]) = true :=
  ⟨by decide, (C7_duplicate_columns ["name".toList, "weight".toList, "name".toList]
    [[Cell.str "A", Cell.num (PFloat.val 1), Cell.str "B"]]).2 (by decide)⟩

theorem get_prices_of_some (s : LoaderState) (r : Nat) (h : s.cache = some r) :
    DataLoader.get_prices s =
      ({ source := s.source, heap := s.heap ++ [readRef s.heap r],
         cache := some r }, s.heap.length) := by
  cases s with
  | mk src heap cache =>
    simp only at h
    subst h
    simp [DataLoader.get_prices]

theorem get_prices_shape (s : LoaderState) (hwf : DataLoader.WF s) :
    ∃ (H : List PriceTable) (i : Nat), i < H.length ∧
      DataLoader.get_prices s =
        ({ source := s.source, heap := H ++ [readRef H i], cache := some i },
         H.length) := by
  cases hc : s.cache with
  | some r => exact ⟨s.heap, r, hwf r hc, get_prices_of_some s r hc⟩
  | none =>
    refine ⟨s.heap ++ [⟨s.source.symbols, sortRowsByDate s.source.rows⟩],
      s.heap.length, by simp, ?_⟩
    cases s with
    | mk src heap cache =>
      simp only at hc
      subst hc
      simp [DataLoader.get_prices, DataLoader.load_prices]

/-- Claim C8: `get_prices` returns a deep copy of the cached table: two
successive snapshots hold equal tables, mutating the heap cell of the
first snapshot changes neither the second snapshot nor the cached cell (and leaves
the cache handle itself untouched), and a calculation over either
snapshot gives identical results. -/
theorem C8_snapshot_deep_copy (s : LoaderState) (cs : List Constituent)
    (t' : PriceTable) (hwf : DataLoader.WF s)
    (s₁ : LoaderState) (r₁ : Nat) (h₁ : DataLoader.get_prices s = (s₁, r₁))
    (s₂ : LoaderState) (r₂ : Nat) (h₂ : DataLoader.get_prices s₁ = (s₂, r₂)) :
    readRef s₂.heap r₁ = readRef s₂.heap r₂ ∧
    readRef (writeRef s₂ r₁ t').heap r₂ = readRef s₂.heap r₂ ∧
    (∀ rc, s₂.cache = some rc →
      readRef (writeRef s₂ r₁ t').heap rc = readRef s₂.heap rc ∧
      (writeRef s₂ r₁ t').cache = s₂.cache) ∧
    ETFCalculator.calculate_etf_prices (readRef s₂.heap r₁) cs =
      ETFCalculator.calculate_etf_prices (readRef s₂.heap r₂) cs := by
  rcases get_prices_shape s hwf with ⟨H, i, hi, heq1⟩
  rw [heq1, Prod.mk.injEq] at h₁
  obtain ⟨h1a, h1b⟩ := h₁
  subst h1a
  subst h1b
  rw [get_prices_of_some _ i rfl, Prod.mk.injEq] at h₂
  obtain ⟨h2a, h2b⟩ := h₂
  subst h2a
  subst h2b
  have hc : readRef (H ++ [readRef H i]) i = readRef H i := readRef_append_lt hi
  have hr₂ : (H ++ [readRef H i]).length = H.length + 1 := by simp
  have e1 : readRef ((H ++ [readRef H i]) ++
      [readRef (H ++ [readRef H i]) i]) H.length = readRef H i := by
    rw [readRef_append_lt (by simp), readRef_concat_self]
  have e2 : readRef ((H ++ [readRef H i]) ++
      [readRef (H ++ [readRef H i]) i]) ((H ++ [readRef H i]).length) =
      readRef (H ++ [readRef H i]) i := readRef_concat_self _ _
  refine ⟨?_, ?_, ?_, ?_⟩
  · rw [e1, e2, hc]
  · exact readRef_set_ne (by simp)
  · intro rc hrc
    injection hrc with hirc
    subst hirc
    refine ⟨readRef_set_ne (by simp; omega), rfl⟩
  · rw [e1, e2, hc]

/-- Claim C8, witness: a loaded cache, two snapshots, then mutation of
the heap cell of the first snapshot. -/
theorem C8_witness :
    readRef (⟨sampleTable, [sampleTable, sampleTable, sampleTable],
      some 0⟩ : LoaderState).heap 1 =
      readRef (⟨sampleTable, [sampleTable, sampleTable, sampleTable],
        some 0⟩ : LoaderState).heap 2 ∧
    readRef (writeRef ⟨sampleTable, [sampleTable, sampleTable, sampleTable],
        some 0⟩ 1 ⟨[], []⟩).heap 2 =
      readRef (⟨sampleTable, [sampleTable, sampleTable, sampleTable],
        some 0⟩ : LoaderState).heap 2 ∧
    (readRef (writeRef ⟨sampleTable, [sampleTable, sampleTable, sampleTable],
        some 0⟩ 1 ⟨[], []⟩).heap 0 =
      readRef (⟨sampleTable, [sampleTable, sampleTable, sampleTable],
        some 0⟩ : LoaderState).heap 0 ∧
      (writeRef ⟨sampleTable, [sampleTable, sampleTable, sampleTable],
        some 0⟩ 1 ⟨[], []⟩).cache =
        (⟨sampleTable, [sampleTable, sampleTable, sampleTable],
          some 0⟩ : LoaderState).cache) ∧
    ETFCalculator.calculate_etf_prices
        (readRef (⟨sampleTable, [sampleTable, sampleTable, sampleTable],
          some 0⟩ : LoaderState).heap 1) [] =
      ETFCalculator.calculate_etf_prices
        (readRef (⟨sampleTable, [sampleTable, sampleTable, sampleTable],
          some 0⟩ : LoaderState).heap 2) [] := by
  have h := C8_snapshot_deep_copy ⟨sampleTable, [sampleTable], some 0⟩ [] ⟨[], []⟩
    (by intro r hr; injection hr with hr'; subst hr'; simp)
    ⟨sampleTable, [sampleTable, sampleTable], some 0⟩ 1 (by rfl)
    ⟨sampleTable, [sampleTable, sampleTable, sampleTable], some 0⟩ 2 (by rfl)
  exact ⟨h.1, h.2.1, h.2.2.1 0 rfl, h.2.2.2⟩

/-- Claim C6, witness: the enumeration and message clauses at a concrete
offending list. -/
theorem C6_witness :
    ETFValidator.invalid_weights [⟨"A", PFloat.val 2⟩] =
      (([⟨"A", PFloat.val 2⟩] : List Constituent).filter
        (fun c => PFloat.lt c.weight (PFloat.val 0) ||
          PFloat.lt (PFloat.val 1) c.weight)).map
        (fun c => c.name ++ ": " ++ pfloatStr c.weight ++
          (if PFloat.lt c.weight (PFloat.val 0) then " (negative weight)"
            else " (exceeds 100%)")) ∧
    (ETFValidator.validate_weight_ranges [⟨"A", PFloat.val 2⟩]).2 =
      (if ETFValidator.invalid_weights [⟨"A", PFloat.val 2⟩] = [] then ""
        else "Invalid weight values detected:\n" ++
          String.intercalate "\n"
            ((ETFValidator.invalid_weights [⟨"A", PFloat.val 2⟩]).map
              (fun w => "  - " ++ w))) :=
  ⟨(C6_weight_ranges [⟨"A", PFloat.val 2⟩]).2.1,
   (C6_weight_ranges [⟨"A", PFloat.val 2⟩]).2.2⟩
